import Mathlib

/-!
Verification of the Oracle Linux OVAL vulnerability-source updater
(`ext/vulnsrc/oracle/oracle.go`) against its natural-language design
specification.

The Go source is shallowly embedded: pure helpers become Lean functions,
Go strings are modelled through their character lists (all strings the
updater manipulates are ASCII, so byte indexing and rune indexing agree),
machine integers become `Int`/`Nat` (the advisory ids involved are far
below 2^63, so overflow never occurs), and operations that can panic at
runtime (out-of-range slice expressions) return `Option`, with `none`
standing for the panic.

External collaborators that are part of the Clair repository but not in
the sources under verification (the `versionfmt` package's version
validator and its `MaxVersion` sentinel, the `database` package's
`BinaryPackage` feature-type tag, the rpm parser name) are modelled from
the spec as parameters or opaque string constants; see the doc comments
of `affectedType` and `rpmParserName`.
-/

/-! ## Basic string helpers (models of the Go standard library calls) -/

/-- Model of testing whether `pat` is a leading segment of `s`
(byte-for-byte, as Go string comparison does). -/
def leadsWith : List Char → List Char → Bool
  | [], _ => true
  | _ :: _, [] => false
  | p :: ps, c :: cs => p = c && leadsWith ps cs

/-- Model of Go `strings.Index`: index of the first occurrence of `pat`
in `s`, or `none` where Go returns `-1`. -/
def firstIdx (pat : List Char) : List Char → Option Nat
  | [] => if leadsWith pat [] then some 0 else none
  | c :: rest => if leadsWith pat (c :: rest) then some 0 else (firstIdx pat rest).map (· + 1)

/-- Model of Go `strings.Contains s pat`. -/
def containsStr (s pat : String) : Bool :=
  (firstIdx pat.data s.data).isSome

/-- Model of Go `strings.TrimSpace` (leading and trailing whitespace). -/
def trimChars (s : List Char) : List Char :=
  ((s.dropWhile Char.isWhitespace).reverse.dropWhile Char.isWhitespace).reverse

/-- Model of Go `strings.ToLower` for the ASCII labels this updater sees. -/
def toLowerStr (s : String) : String :=
  String.mk (s.data.map Char.toLower)

/-! ## Decimal numerals (model of `strconv.Itoa` / `strconv.Atoi`) -/

/-- Most-significant-first decimal digits of `n`; the first argument is
fuel, always called with fuel `> n` so it never runs out. -/
def decDigitsAux : Nat → Nat → List Nat
  | 0, _ => []
  | fuel + 1, n => if n = 0 then [] else decDigitsAux fuel (n / 10) ++ [n % 10]

/-- The decimal numeral of `n` as a digit list, as `strconv.Itoa` prints
it (`0` prints as `"0"`). -/
def decDigits (n : Nat) : List Nat :=
  if n = 0 then [0] else decDigitsAux (n + 1) n

/-- Decimal string of a natural number. -/
def natToStr (n : Nat) : String :=
  String.mk ((decDigits n).map (fun d => Char.ofNat (48 + d)))

/-- Model of `strconv.Itoa` over `Int`. -/
def itoa (n : Int) : String :=
  if n < 0 then "-" ++ natToStr n.natAbs else natToStr n.toNat

/-- Digit value of a character, `none` when it is not `'0'..'9'`. -/
def digitVal (c : Char) : Option Nat :=
  if '0' ≤ c ∧ c ≤ '9' then some (c.toNat - 48) else none

/-- Parse a nonempty all-digit suffix, accumulating the value. -/
def parseDigitsAux : List Char → Nat → Option Nat
  | [], acc => some acc
  | c :: rest, acc =>
    match digitVal c with
    | none => none
    | some d => parseDigitsAux rest (acc * 10 + d)

/-- Model of Go `strconv.Atoi`: optional sign then one or more digits,
nothing else; `none` where Go reports an error.  (Overflow is not
modelled: the values the updater parses are far below 2^63.) -/
def atoi (s : String) : Option Int :=
  match s.data with
  | [] => none
  | '+' :: rest => if rest.isEmpty then none else (parseDigitsAux rest 0).map Int.ofNat
  | '-' :: rest => if rest.isEmpty then none else (parseDigitsAux rest 0).map (fun n => -(Int.ofNat n))
  | l => (parseDigitsAux l 0).map Int.ofNat

/-! ## compareELSA (`oracle.go` lines 97–125)

The Go function renders both ids with `strconv.Itoa` and walks the bytes
of the left string: if the right string is exhausted first it returns
`1`; at the first differing byte it returns `±1` (each byte is converted
back with `strconv.Atoi`, whose error on a `'-'` byte is discarded,
leaving digit value `0`); if the left string is exhausted it returns
`len(lstr) - len(rstr)`. -/

/-- The byte-wise digit values `compareELSA` sees for an id: the decimal
digits, preceded by `0` for the `'-'` byte of a negative id (the Go code
ignores the `Atoi` conversion error, so the sign byte reads as `0`). -/
def byteDigits (n : Int) : List Nat :=
  if n < 0 then 0 :: decDigits n.natAbs else decDigits n.toNat

/-- The digit-walking loop of `compareELSA`. -/
def cmpDigitLists : List Nat → List Nat → Int
  | [], rs => -(rs.length : Int)
  | _ :: _, [] => 1
  | l :: ls, r :: rs =>
    if l > r then 1 else if l < r then -1 else cmpDigitLists ls rs

/-- Embedding of `compareELSA` (`oracle.go:97`). -/
def compareELSA (left right : Int) : Int :=
  if right = left then 0
  else cmpDigitLists (byteDigits left) (byteDigits right)

/-! ### Arithmetic facts about decimal numerals -/

/-- Value of a most-significant-first digit list. -/
def valMSB : List Nat → Nat
  | [] => 0
  | d :: ds => d * 10 ^ ds.length + valMSB ds

/-! ## Cursor load (`Update`, `oracle.go` lines 130–142)

`Update` reads the `oracleUpdater` key from the datastore (missing key
becomes the empty string), runs `strconv.Atoi` on it, and falls back to
`firstOracle5ELSA` when the parse errors **or the parsed value is 0** —
but a successfully parsed non-zero value, negative ones included, is
kept as the cursor. -/

/-- Embedding of `firstOracle5ELSA` (`oracle.go:40`), the fixed baseline id. -/
def firstOracle5ELSA : Int := 20070057

/-- The cursor actually used by a batch, computed from the stored flag
value exactly as `oracle.go:130-142` does (`none` models a missing
key). -/
def effectiveCursor (flagValue : Option String) : Int :=
  match atoi (flagValue.getD "") with
  | none => firstOracle5ELSA
  | some v => if v = 0 then firstOracle5ELSA else v

/-! ## The advisory data model (`oracle.go` lines 56–89) -/

/-- Embedding of `criterion` (`oracle.go:87`): a leaf condition carrying only its
free-text comment. -/
structure criterion where
  Comment : String
deriving DecidableEq, Repr

/-- Embedding of `criteria` (`oracle.go:81`): a condition-tree node with an operator,
child nodes and leaf criterions (the Go `[]*criteria` pointers are
always dereferenced, so they are modelled as values). -/
inductive criteria where
  | mk (Operator : String) (Criterias : List criteria) (Criterions : List criterion)

/-- Operator accessor. -/
def criteria.Operator : criteria → String
  | .mk op _ _ => op

/-- Child-node accessor. -/
def criteria.Criterias : criteria → List criteria
  | .mk _ cs _ => cs

/-- Leaf accessor. -/
def criteria.Criterions : criteria → List criterion
  | .mk _ _ ls => ls

/-- Embedding of `reference` (`oracle.go:69`). -/
structure reference where
  Source : String
  URI : String
  ID : String
deriving DecidableEq, Repr

/-- Embedding of `cve` (`oracle.go:75`). -/
structure cve where
  Impact : String
  Href : String
  ID : String
deriving DecidableEq, Repr

/-- Embedding of `definition` (`oracle.go:60`): one decoded advisory definition. -/
structure definition where
  Title : String
  Description : String
  References : List reference
  Criteria : criteria
  Severity : String
  CVEs : List cve

/-! ## Description collapsing (`description`, `oracle.go` lines 401–407)

The Go code runs three global `strings.Replace` passes: `"\n\n\n"` to a
space, then `"\n\n"` to a space, then `"\n"` to a space. -/

/-- One pass of Go `strings.Replace(s, pat, rep, -1)`: scan left to
right, replacing non-overlapping occurrences.  The fuel is the length of
`s`, which bounds the recursion since every step consumes at least one
character (`pat` is nonempty at every call site). -/
def replaceAllAux (fuel : Nat) (pat rep : List Char) : List Char → List Char
  | [] => []
  | c :: rest =>
    match fuel with
    | 0 => c :: rest
    | fuel + 1 =>
      if leadsWith pat (c :: rest) then
        rep ++ replaceAllAux fuel pat rep ((c :: rest).drop pat.length)
      else
        c :: replaceAllAux fuel pat rep rest

/-- Model of Go `strings.Replace(s, pat, rep, -1)`. -/
def goReplace (s pat rep : String) : String :=
  String.mk (replaceAllAux s.data.length pat.data rep.data s.data)

/-- Embedding of `description` (`oracle.go:401`). -/
def description (d : definition) : String :=
  goReplace (goReplace (goReplace d.Description "\n\n\n" " ") "\n\n" " ") "\n" " "

/-- A definition carrying only a description, for exercising
`description` (the other fields do not participate). -/
def descOnlyDef (s : String) : definition :=
  { Title := "T: x", Description := s, References := [], Criteria := criteria.mk "" [] [],
    Severity := "", CVEs := [] }

/-! ## Criteria normalizer (`oracle.go` lines 269–342) -/

/-- Embedding of `ignoredCriterions` (`oracle.go:48`). -/
def ignoredCriterions : List String :=
  [" is signed with the Oracle Linux", ".ksplice1."]

/-- Embedding of `getCriterions` (`oracle.go:269`): filter the ignorable leaves of a
node, then, by the node's operator, produce one conjunction of all
remaining leaves (`AND`), one singleton possibility per leaf (`OR`), or
nothing. -/
def getCriterions (node : criteria) : List (List criterion) :=
  let criterions := node.Criterions.filter
    (fun c => !(ignoredCriterions.any (fun ig => containsStr c.Comment ig)))
  if node.Operator = "AND" then [criterions]
  else if node.Operator = "OR" then criterions.map (fun c => [c])
  else []

/-- The `AND` composition loop of `getPossibilities` (`oracle.go:314`):
seed with the first group, then fold the cartesian concatenation over
the remaining groups. -/
def composeAnd : List (List (List criterion)) → List (List criterion)
  | [] => []
  | g :: gs => gs.foldl (fun poss grp => poss.flatMap (fun p => grp.map (fun q => p ++ q))) g

/-- Embedding of `getPossibilities` (`oracle.go:300`): DNF expansion of a condition
tree.  A leaves-only node delegates to `getCriterions`; otherwise the
child possibilities (plus one group from the node's own leaves, if any)
are combined by the node's operator. -/
def getPossibilities : criteria → List (List criterion)
  | criteria.mk op cs leaves =>
    if cs.isEmpty then getCriterions (criteria.mk op cs leaves)
    else
      let composed := cs.attach.map (fun c => getPossibilities c.1)
      let composed :=
        if leaves.length > 0 then composed ++ [getCriterions (criteria.mk op cs leaves)]
        else composed
      if op = "AND" then composeAnd composed
      else if op = "OR" then composed.flatten
      else []
decreasing_by
  have := List.sizeOf_lt_of_mem c.2
  simp only [criteria.mk.sizeOf_spec]
  omega

/-! ## Feature extractor (`toFeatures`, `oracle.go` lines 344–399) -/

/-- Modelled from the spec: the `database.BinaryPackage` feature-type
tag (the "binary package" kind fixed for this feed); the external
`database` package is not among the verified sources, so the tag is an
opaque non-empty label. -/
def affectedType : String := "binary"

/-- Modelled from the spec: the name of the feed's package-manager
version grammar (`rpm.ParserName`), an opaque label of the external
version validator. -/
def rpmParserName : String := "rpm"

/-- The OS-release pattern marker (`oracle.go:359`). -/
def installedMarker : String := " is installed"

/-- The version-bound pattern marker (`oracle.go:365`); its length is
the `prefixLen = 17` of the Go code. -/
def earlierMarker : String := " is earlier than "

/-- Embedding of `database.AffectedFeature.Namespace`. -/
structure Namespace where
  Name : String
  VersionFormat : String
deriving DecidableEq, Repr

/-- Embedding of `database.AffectedFeature`, restricted to the fields `toFeatures`
touches.  The Go zero value has every field empty. -/
structure AffectedFeature where
  Namespace : Namespace
  FeatureName : String
  FeatureType : String
  AffectedVersion : String
  FixedInVersion : String
deriving DecidableEq, Repr

/-- The Go zero value of `database.AffectedFeature`. -/
def emptyAffectedFeature : AffectedFeature :=
  ⟨⟨"", ""⟩, "", "", "", ""⟩

/-- The per-possibility loop state of `toFeatures`: the in-progress
feature and the `osVersion` local (an `int`, zero-initialised). -/
structure FeatureAcc where
  feature : AffectedFeature
  osVersion : Int
deriving DecidableEq, Repr

/-- Loop-entry state (`oracle.go:351-355`). -/
def initialFeatureAcc : FeatureAcc :=
  ⟨emptyAffectedFeature, 0⟩

/-- One iteration of the criterion loop (`oracle.go:358-380`),
parameterised by the external version validator `valid` and sentinel
`maxV` (modelled from the spec, §6 "Version validator").  `none` models
the Go slice panic: when the comment contains `" is installed"` but no
space occurs at or after byte 13, `strings.Index` returns `-1` and the
slice `c.Comment[13 : 13-1]` is out of range.  An `strconv.Atoi` failure
on the release token stores 0 (Go's zero result) and continues; an
invalid version leaves the version fields untouched but has already set
the name and type; a valid version sets `AffectedVersion`, and also
`FixedInVersion` unless the version equals the sentinel. -/
def processCriterion (valid : String → Bool) (maxV : String) (acc : FeatureAcc)
    (c : criterion) : Option FeatureAcc :=
  let s := c.Comment.data
  if containsStr c.Comment installedMarker then
    match firstIdx [' '] (s.drop 13) with
    | none => none
    | some j =>
      let token := String.mk (trimChars ((s.drop 13).take j))
      some { acc with osVersion := (atoi token).getD 0 }
  else
    match firstIdx earlierMarker.data s with
    | none => some acc
    | some i =>
      let f0 := { acc.feature with
                    FeatureName := String.mk (trimChars (s.take i)),
                    FeatureType := affectedType }
      let version := String.mk (s.drop (i + 17))
      if valid version then
        let f1 := { f0 with AffectedVersion := version }
        let f2 := if version ≠ maxV then { f1 with FixedInVersion := version } else f1
        some { acc with feature := f2 }
      else
        some { acc with feature := f0 }

/-- The criterion loop over one possibility (`oracle.go:358-380`),
propagating the panic. -/
def possibilityFeature (valid : String → Bool) (maxV : String) :
    List criterion → FeatureAcc → Option FeatureAcc
  | [], acc => some acc
  | c :: rest, acc =>
    match processCriterion valid maxV acc c with
    | none => none
    | some acc' => possibilityFeature valid maxV rest acc'

/-- The post-loop namespace assignment (`oracle.go:382-383`). -/
def finishFeature (acc : FeatureAcc) : AffectedFeature :=
  { acc.feature with Namespace := ⟨"oracle" ++ ":" ++ itoa acc.osVersion, rpmParserName⟩ }

/-- The completeness check guarding emission (`oracle.go:385`). -/
def resolvedFeature (f : AffectedFeature) : Bool :=
  f.Namespace.Name != "" && f.FeatureName != "" && f.AffectedVersion != "" && f.FixedInVersion != ""

/-- The dedup key (`oracle.go:386`). -/
def featKey (f : AffectedFeature) : String :=
  f.Namespace.Name ++ ":" ++ f.FeatureName

/-- Model of assignment into the Go dedup map: replace the value at an
existing key, else add the binding (last write wins; the theorems below
use only membership, since Go map iteration order is unspecified). -/
def upsert (k : String) (v : AffectedFeature) :
    List (String × AffectedFeature) → List (String × AffectedFeature)
  | [] => [(k, v)]
  | (k', w) :: rest => if k' = k then (k', v) :: rest else (k', w) :: upsert k v rest

/-- The possibility loop of `toFeatures` (`oracle.go:350-390`): run the
criterion loop on each possibility, finish the namespace, and store the
feature in the dedup map only when the completeness check passes. -/
def foldPoss (valid : String → Bool) (maxV : String) :
    List (List criterion) → List (String × AffectedFeature) →
    Option (List (String × AffectedFeature))
  | [], m => some m
  | crits :: rest, m =>
    match possibilityFeature valid maxV crits initialFeatureAcc with
    | none => none
    | some acc =>
      let f := finishFeature acc
      if resolvedFeature f then foldPoss valid maxV rest (upsert (featKey f) f m)
      else foldPoss valid maxV rest m

/-- Embedding of `toFeatures` (`oracle.go:344`): DNF-expand the tree, process every
possibility, and return the deduplicated features (`none` models a
panic in the criterion loop). -/
def toFeatures (valid : String → Bool) (maxV : String) (root : criteria) :
    Option (List AffectedFeature) :=
  (foldPoss valid maxV (getPossibilities root) []).map (fun m => m.map Prod.snd)

/-! ## Vulnerability synthesizer (`oracle.go` lines 219–267, 409–440) -/

/-- Embedding of `database.Severity`. -/
inductive Severity where
  | negligible
  | low
  | medium
  | high
  | critical
  | unknown
deriving DecidableEq, Repr

/-- Embedding of `severity` (`oracle.go:424`): case-insensitive mapping of the feed's
severity labels, defaulting to unknown. -/
def severity (sev : String) : Severity :=
  let l := toLowerStr sev
  if l = "n/a" then .negligible
  else if l = "low" then .low
  else if l = "moderate" then .medium
  else if l = "important" ∨ l = "high" then .high
  else if l = "critical" then .critical
  else .unknown

/-- Embedding of `link` (`oracle.go:413`): the URI of the first reference whose
source tag is `"elsa"`, or the empty string. -/
def link (d : definition) : String :=
  linkAux d.References
where
  linkAux : List reference → String
    | [] => ""
    | r :: rest => if r.Source = "elsa" then r.URI else linkAux rest

/-- Embedding of `name` (`oracle.go:409`): the title truncated at the first `": "`,
trimmed.  When the title lacks `": "`, Go's `strings.Index` returns `-1`
and the slice `def.Title[:-1]` panics — modelled by `none`. -/
def name (d : definition) : Option String :=
  match firstIdx ": ".data d.Title.data with
  | none => none
  | some i => some (String.mk (trimChars (d.Title.data.take i)))

/-- Embedding of `database.VulnerabilityWithAffected`, restricted to the fields this
updater writes. -/
structure VulnRecord where
  Name : String
  Link : String
  Severity : Severity
  Description : String
  Affected : List AffectedFeature
deriving DecidableEq

/-- The definition loop of `parseELSA` (`oracle.go:231-264`), operating
on the already-decoded definition list (XML decoding is the external
input; a decode failure short-circuits before this loop).  For each
definition that yields at least one affected feature it builds the base
record — calling `name`, whose panic propagates as `none` — then emits
the base record alone when no CVEs are listed, else one record per CVE
with name, link and severity overridden. -/
def parseELSADefs (valid : String → Bool) (maxV : String) :
    List definition → List VulnRecord → Option (List VulnRecord)
  | [], acc => some acc
  | d :: rest, acc =>
    match toFeatures valid maxV d.Criteria with
    | none => none
    | some pkgs =>
      if pkgs.length > 0 then
        match name d with
        | none => none
        | some nm =>
          let base : VulnRecord :=
            { Name := nm, Link := link d, Severity := severity d.Severity,
              Description := description d, Affected := pkgs }
          if d.CVEs.isEmpty then parseELSADefs valid maxV rest (acc ++ [base])
          else
            parseELSADefs valid maxV rest (acc ++ d.CVEs.map (fun cv =>
              { base with
                  Name := cv.ID,
                  Link := cv.Href,
                  Severity := if cv.Impact ≠ "" then severity cv.Impact
                    else severity d.Severity }))
      else parseELSADefs valid maxV rest acc

/-! ## Update orchestrator (`Update`, `oracle.go` lines 127–206)

The HTTP transport and the datastore are external collaborators; the
batch is modelled as a function of the stored flag value, the advisory
ids extracted from the index listing, and the per-advisory outcome of
"fetch, check status, decode" (`ElsaResult`).  `Update`'s own logic —
cursor computation, candidate selection by `compareELSA`, the abort on
the first per-advisory failure, result accumulation, and the flag
proposal — is mirrored exactly. -/

/-- Outcome of fetching and parsing one advisory document: transport
failure, non-2xx status, decode failure, or the parsed vulnerability
records. -/
inductive ElsaResult where
  | fetchErr
  | badStatus
  | parseErr
  | ok (vulns : List VulnRecord)
deriving DecidableEq

/-- The typed errors `Update` returns (`commonerr.ErrCouldNotDownload`,
`commonerr.ErrCouldNotParse`). -/
inductive UpdateError where
  | couldNotDownload
  | couldNotParse
deriving DecidableEq, Repr

/-- Embedding of `vulnsrc.UpdateResponse`, restricted to the fields `Update` writes:
the proposed `oracleUpdater` flag value (`none` when the `Flags` map is
never created) and the accumulated vulnerabilities. -/
structure UpdateResponse where
  FlagValue : Option String
  Vulnerabilities : List VulnRecord
deriving DecidableEq

/-- A result that aborts the batch (fetch error, bad status, or decode
failure). -/
def ElsaResult.isFailure : ElsaResult → Bool
  | .ok _ => false
  | _ => true

/-- Candidate selection (`oracle.go:158-169`): the listing's ids that
compare strictly greater than the cursor under `compareELSA`. -/
def selectedElsas (flagValue : Option String) (listing : List Int) : List Int :=
  listing.filter (fun n => compareELSA n (effectiveCursor flagValue) > 0)

/-- The per-advisory loop (`oracle.go:171-195`): process candidates in
order, accumulating parsed vulnerabilities, and stop at the first
failure with the corresponding typed error.  Note the Go code returns
the named result `resp` on failure, so the vulnerabilities accumulated
before the failure are part of the returned response. -/
def processElsas (results : Int → ElsaResult) : List Int → List VulnRecord →
    List VulnRecord × Option UpdateError
  | [], acc => (acc, none)
  | e :: rest, acc =>
    match results e with
    | .fetchErr => (acc, some .couldNotDownload)
    | .badStatus => (acc, some .couldNotDownload)
    | .parseErr => (acc, some .couldNotParse)
    | .ok vs => processElsas results rest (acc ++ vs)

/-- Embedding of `largest` (`oracle.go:208`): maximum over the list, seeded with the
zero value of `int`. -/
def largest (l : List Int) : Int :=
  l.foldl (fun acc x => if x > acc then x else acc) 0

/-- Embedding of `Update` (`oracle.go:127`): load the cursor, select candidates, run
the per-advisory loop, and propose the flag (the largest candidate id)
only when the loop finished without failure and the candidate set is
non-empty. -/
def update (flagValue : Option String) (listing : List Int)
    (results : Int → ElsaResult) : UpdateResponse × Option UpdateError :=
  let elsaList := selectedElsas flagValue listing
  match processElsas results elsaList [] with
  | (vulns, some e) => (⟨none, vulns⟩, some e)
  | (vulns, none) =>
    if elsaList.length > 0 then (⟨some (itoa (largest elsaList)), vulns⟩, none)
    else (⟨none, vulns⟩, none)

theorem valMSB_append_single (l : List Nat) (d : Nat) :
    valMSB (l ++ [d]) = 10 * valMSB l + d := by
  induction l with
  | nil => simp [valMSB]
  | cons x l ih =>
    show valMSB (x :: (l ++ [d])) = 10 * valMSB (x :: l) + d
    simp only [valMSB, ih, List.length_append, List.length_cons, List.length_nil]
    ring

theorem decDigitsAux_val (fuel : Nat) : ∀ n, n ≤ fuel → valMSB (decDigitsAux fuel n) = n := by
  induction fuel with
  | zero => intro n h; interval_cases n; simp [decDigitsAux, valMSB]
  | succ fuel ih =>
    intro n h
    by_cases h0 : n = 0
    · simp [decDigitsAux, h0, valMSB]
    · have hlt : n / 10 ≤ fuel := by
        have : n / 10 < n := Nat.div_lt_self (Nat.pos_of_ne_zero h0) (by norm_num)
        omega
      simp only [decDigitsAux, h0, if_false, valMSB_append_single, ih (n / 10) hlt]
      omega

theorem decDigitsAux_lt_ten (fuel : Nat) :
    ∀ n d, d ∈ decDigitsAux fuel n → d < 10 := by
  induction fuel with
  | zero => intro n d h; simp [decDigitsAux] at h
  | succ fuel ih =>
    intro n d h
    by_cases h0 : n = 0
    · simp [decDigitsAux, h0] at h
    · simp only [decDigitsAux, h0, if_false, List.mem_append, List.mem_singleton] at h
      rcases h with h | h
      · exact ih _ _ h
      · subst h; exact Nat.mod_lt _ (by norm_num)

theorem decDigits_val (n : Nat) : valMSB (decDigits n) = n := by
  by_cases h0 : n = 0
  · simp [decDigits, h0, valMSB]
  · simp only [decDigits, h0, if_false]
    exact decDigitsAux_val (n + 1) n (Nat.le_succ n)

theorem decDigits_lt_ten (n : Nat) : ∀ d ∈ decDigits n, d < 10 := by
  intro d hd
  by_cases h0 : n = 0
  · simp [decDigits, h0] at hd; omega
  · simp only [decDigits, h0, if_false] at hd
    exact decDigitsAux_lt_ten (n + 1) n d hd

theorem valMSB_lt_pow (l : List Nat) (h : ∀ d ∈ l, d < 10) :
    valMSB l < 10 ^ l.length := by
  induction l with
  | nil => simp [valMSB]
  | cons d ds ih =>
    have hd : d < 10 := h d (List.mem_cons_self _ _)
    have hds : valMSB ds < 10 ^ ds.length := ih (fun x hx => h x (List.mem_cons_of_mem _ hx))
    simp only [valMSB, List.length_cons, pow_succ]
    calc d * 10 ^ ds.length + valMSB ds
        < d * 10 ^ ds.length + 10 ^ ds.length := by omega
      _ = (d + 1) * 10 ^ ds.length := by ring
      _ ≤ 10 * 10 ^ ds.length := by
          exact Nat.mul_le_mul_right _ (by omega)
      _ = 10 ^ ds.length * 10 := by ring

theorem cmpDigitLists_neg : ∀ ls rs : List Nat, ls.length = rs.length →
    (∀ d ∈ rs, d < 10) → valMSB ls < valMSB rs → cmpDigitLists ls rs = -1 := by
  intro ls
  induction ls with
  | nil =>
    intro rs hlen _ hval
    have : rs = [] := List.eq_nil_of_length_eq_zero hlen.symm
    subst this
    simp [valMSB] at hval
  | cons l ls ih =>
    intro rs hlen hdig hval
    cases rs with
    | nil => simp at hlen
    | cons r rs' =>
      simp only [List.length_cons, Nat.succ_inj] at hlen
      by_cases hgt : l > r
      · exfalso
        have hbound : valMSB rs' < 10 ^ rs'.length :=
          valMSB_lt_pow rs' (fun d hd => hdig d (List.mem_cons_of_mem _ hd))
        simp only [valMSB, hlen] at hval
        have : (r + 1) * 10 ^ rs'.length ≤ l * 10 ^ rs'.length :=
          Nat.mul_le_mul_right _ (by omega)
        nlinarith
      · by_cases hlt : l < r
        · simp [cmpDigitLists, hgt, hlt]
        · have heq : l = r := by omega
          subst heq
          simp only [cmpDigitLists, lt_irrefl, if_false, gt_iff_lt]
          have hval' : valMSB ls < valMSB rs' := by
            simp only [valMSB, hlen] at hval
            omega
          exact ih rs' hlen (fun d hd => hdig d (List.mem_cons_of_mem _ hd)) hval'

/-- C1 counterexample: the claim asserts `compareELSA` reports `99` less
than `100`, but the source walks the digits before ever comparing
lengths, and `9 > 1` at the first byte, so it returns `1` (left
greater). -/
theorem compareELSA_digitCount_counterexample :
    (99 : Int) < 100 ∧ compareELSA 99 100 = 1 := by
  constructor
  · decide
  · decide

/-- C1 (amended): for non-negative ids whose decimal numerals have the
same number of digits, `compareELSA a b` is negative whenever `a < b`;
the digit-count edge case of the original claim fails (`compareELSA 99
100 = 1`), because the loop compares digit-by-digit first and only falls
back to the length difference when one numeral is a prefix of the other
— a lexicographic, not numeric, order.  Candidate selection in `Update`
keeps the ids `id` with `compareELSA id cursor > 0`, so it coincides
with standard integer ordering only on ids of equal digit count. -/
theorem compareELSA_neg_of_lt_of_sameLen (a b : Nat) (hab : a < b)
    (hlen : (decDigits a).length = (decDigits b).length) :
    compareELSA (a : Int) (b : Int) < 0 := by
  have hne : (b : Int) ≠ (a : Int) := by
    exact_mod_cast Nat.ne_of_gt hab
  have hcast : ∀ n : Nat, byteDigits (n : Int) = decDigits n := by
    intro n
    simp [byteDigits, Int.toNat_natCast]
  rw [compareELSA, if_neg hne, hcast a, hcast b]
  rw [cmpDigitLists_neg (decDigits a) (decDigits b) hlen (decDigits_lt_ten b)
    (by rw [decDigits_val, decDigits_val]; exact hab)]
  decide

/-- Witness for C1: `12 < 13` have two-digit numerals each, and
`compareELSA 12 13 < 0`. -/
theorem compareELSA_neg_of_lt_of_sameLen_witness :
    compareELSA (12 : Nat) (13 : Nat) < 0 :=
  compareELSA_neg_of_lt_of_sameLen 12 13 (by decide) (by decide)

/-- C9 counterexample: the claim requires any stored value that is not a
valid **non-negative** integer to be replaced by the baseline, but the
code only falls back on a parse error or a parsed 0, so the negative
numeral `"-5"` is kept as the cursor. -/
theorem effectiveCursor_negative_counterexample :
    effectiveCursor (some "-5") = -5 ∧ (-5 : Int) ≠ firstOracle5ELSA := by
  constructor
  · decide
  · decide

/-- C9 (amended): at batch start the cursor is computed from the stored
flag; the baseline id is used when the value is absent, fails integer
parsing altogether, or parses to `0` — while any other parsed value,
negative numerals included, is used as the cursor unchanged. -/
theorem effectiveCursor_spec :
    effectiveCursor none = firstOracle5ELSA
  ∧ (∀ s : String, atoi s = none → effectiveCursor (some s) = firstOracle5ELSA)
  ∧ (∀ s : String, atoi s = some 0 → effectiveCursor (some s) = firstOracle5ELSA)
  ∧ (∀ (s : String) (v : Int), atoi s = some v → v ≠ 0 → effectiveCursor (some s) = v) := by
  refine ⟨by decide, ?_, ?_, ?_⟩
  · intro s h
    simp [effectiveCursor, Option.getD, h]
  · intro s h
    simp [effectiveCursor, Option.getD, h]
  · intro s v h hv
    simp [effectiveCursor, Option.getD, h, hv]

/-- Witness for C9: the non-numeric string `"abc"` falls back to the
baseline and `"42"` is used as-is. -/
theorem effectiveCursor_spec_witness :
    effectiveCursor (some "abc") = firstOracle5ELSA ∧ effectiveCursor (some "42") = 42 :=
  ⟨effectiveCursor_spec.2.1 "abc" (by decide),
   effectiveCursor_spec.2.2.2 "42" 42 (by decide) (by decide)⟩

/-- C7 counterexample: the claim promises every run of line breaks
collapses to exactly one space with no doubled spaces, but a run of four
line breaks survives the `"\n\n\n"` pass as `" \n"` and the final pass
turns the leftover `"\n"` into a second space: `"A\n\n\n\nB"` becomes
`"A  B"`, not `"A B"`. -/
theorem description_doubleSpace_counterexample :
    description (descOnlyDef "A\n\n\n\nB") = "A  B" ∧ ("A  B" : String) ≠ "A B" := by
  constructor
  · decide
  · decide

/-- C7 (amended): the three-pass replacement collapses runs of exactly
one, two or three consecutive line breaks to a single space — in
particular `"A\n\n\nB\n\nC\nD"` becomes `"A B C D"` — but runs of four
or more line breaks produce more than one space (four become two). -/
theorem description_collapse :
    description (descOnlyDef "A\n\n\nB\n\nC\nD") = "A B C D"
  ∧ description (descOnlyDef "A\nB") = "A B"
  ∧ description (descOnlyDef "A\n\nB") = "A B"
  ∧ description (descOnlyDef "A\n\n\nB") = "A B"
  ∧ description (descOnlyDef "A\n\n\n\nB") = "A  B" := by
  refine ⟨by decide, by decide, by decide, by decide, by decide⟩

theorem attach_map_fst {α β : Type} (l : List α) (f : α → β) :
    l.attach.map (fun x => f x.1) = l.map f := by
  induction l with
  | nil => rfl
  | cons a t ih =>
    simp [List.attach, List.attachWith, List.map_pmap, List.pmap_eq_map]

/-- Unfolding equation for `getPossibilities` with the `attach`
bookkeeping removed. -/
theorem getPossibilities_eq (op : String) (cs : List criteria) (leaves : List criterion) :
    getPossibilities (criteria.mk op cs leaves) =
      if cs.isEmpty then getCriterions (criteria.mk op cs leaves)
      else
        let composed := cs.map getPossibilities
        let composed :=
          if leaves.length > 0 then composed ++ [getCriterions (criteria.mk op cs leaves)]
          else composed
        if op = "AND" then composeAnd composed
        else if op = "OR" then composed.flatten
        else [] := by
  rw [getPossibilities]
  rw [attach_map_fst cs getPossibilities]

/-- C2 (confirmed): the DNF expansion realises the cartesian-product
semantics — an `AND` node with leaves `X, Y` yields exactly `[[X, Y]]`,
an `OR` node with leaves `X, Y` yields exactly `[[X], [Y]]`, and an
`AND` of two `OR` child groups of sizes 2 and 3 yields exactly the six
pairings, each of length 2. -/
theorem getPossibilities_products :
    getPossibilities (criteria.mk "AND" [] [⟨"X"⟩, ⟨"Y"⟩]) = [[⟨"X"⟩, ⟨"Y"⟩]]
  ∧ getPossibilities (criteria.mk "OR" [] [⟨"X"⟩, ⟨"Y"⟩]) = [[⟨"X"⟩], [⟨"Y"⟩]]
  ∧ getPossibilities
      (criteria.mk "AND"
        [criteria.mk "OR" [] [⟨"A"⟩, ⟨"B"⟩],
         criteria.mk "OR" [] [⟨"C"⟩, ⟨"D"⟩, ⟨"E"⟩]] [])
      = [[⟨"A"⟩, ⟨"C"⟩], [⟨"A"⟩, ⟨"D"⟩], [⟨"A"⟩, ⟨"E"⟩],
         [⟨"B"⟩, ⟨"C"⟩], [⟨"B"⟩, ⟨"D"⟩], [⟨"B"⟩, ⟨"E"⟩]] := by
  refine ⟨?_, ?_, ?_⟩
  · rw [getPossibilities_eq]; decide
  · rw [getPossibilities_eq]; decide
  · rw [getPossibilities_eq]
    simp only [List.map_cons, List.map_nil, getPossibilities_eq]
    decide

/-! ### Structural lemmas about the extractor -/

theorem upsert_mem :
    ∀ (m : List (String × AffectedFeature)) (k : String) (v : AffectedFeature)
      (p : String × AffectedFeature), p ∈ upsert k v m → p = (k, v) ∨ p ∈ m := by
  intro m k v
  induction m with
  | nil =>
    intro p hp
    simp only [upsert, List.mem_singleton] at hp
    exact Or.inl hp
  | cons kw rest ih =>
    intro p hp
    obtain ⟨k', w⟩ := kw
    simp only [upsert] at hp
    by_cases hk : k' = k
    · rw [if_pos hk] at hp
      rcases List.mem_cons.mp hp with h | h
      · left; rw [h, hk]
      · right; exact List.mem_cons_of_mem _ h
    · rw [if_neg hk] at hp
      rcases List.mem_cons.mp hp with h | h
      · right; rw [h]; exact List.mem_cons_self _ _
      · rcases ih p h with h' | h'
        · left; exact h'
        · right; exact List.mem_cons_of_mem _ h'

theorem foldPoss_mem (valid : String → Bool) (maxV : String) :
    ∀ (poss : List (List criterion)) (m m' : List (String × AffectedFeature)),
      foldPoss valid maxV poss m = some m' →
      ∀ p ∈ m', p ∈ m ∨
        ∃ crits ∈ poss, ∃ res,
          possibilityFeature valid maxV crits initialFeatureAcc = some res ∧
          p.2 = finishFeature res ∧ resolvedFeature (finishFeature res) = true := by
  intro poss
  induction poss with
  | nil =>
    intro m m' h p hp
    simp only [foldPoss, Option.some_inj] at h
    subst h
    exact Or.inl hp
  | cons crits rest ih =>
    intro m m' h p hp
    simp only [foldPoss] at h
    split at h
    · simp at h
    · rename_i res hpf
      by_cases hres : resolvedFeature (finishFeature res) = true
      · rw [if_pos hres] at h
        rcases ih _ _ h p hp with hmem | ⟨cr, hcr, r, hr1, hr2, hr3⟩
        · rcases upsert_mem _ _ _ _ hmem with heq | hmem'
          · right
            exact ⟨crits, List.mem_cons_self _ _, res, hpf, by rw [heq], hres⟩
          · left; exact hmem'
        · right; exact ⟨cr, List.mem_cons_of_mem _ hcr, r, hr1, hr2, hr3⟩
      · rw [if_neg hres] at h
        rcases ih _ _ h p hp with hmem | ⟨cr, hcr, r, hr1, hr2, hr3⟩
        · left; exact hmem
        · right; exact ⟨cr, List.mem_cons_of_mem _ hcr, r, hr1, hr2, hr3⟩

theorem toFeatures_resolved (valid : String → Bool) (maxV : String) (root : criteria)
    (facts : List AffectedFeature) (h : toFeatures valid maxV root = some facts) :
    ∀ f ∈ facts, resolvedFeature f = true := by
  simp only [toFeatures] at h
  cases hf : foldPoss valid maxV (getPossibilities root) [] with
  | none => rw [hf] at h; simp at h
  | some m' =>
    rw [hf] at h
    simp only [Option.map_some', Option.some_inj] at h
    subst h
    intro f hf'
    rcases List.mem_map.mp hf' with ⟨p, hp, hpf⟩
    rcases foldPoss_mem valid maxV _ _ _ hf p hp with hmem | ⟨_, _, res, _, hpe, hres⟩
    · simp at hmem
    · rw [← hpf, hpe]; exact hres

theorem processCriterion_osVersion (valid : String → Bool) (maxV : String)
    (acc acc' : FeatureAcc) (c : criterion)
    (hni : containsStr c.Comment installedMarker = false)
    (h : processCriterion valid maxV acc c = some acc') :
    acc'.osVersion = acc.osVersion := by
  simp only [processCriterion, hni, Bool.false_eq_true, if_false] at h
  split at h
  · injection h with h; subst h; rfl
  · split at h
    · injection h with h; subst h; rfl
    · injection h with h; subst h; rfl

theorem possibilityFeature_osVersion (valid : String → Bool) (maxV : String) :
    ∀ (crits : List criterion) (acc res : FeatureAcc),
      (∀ c ∈ crits, containsStr c.Comment installedMarker = false) →
      possibilityFeature valid maxV crits acc = some res →
      res.osVersion = acc.osVersion := by
  intro crits
  induction crits with
  | nil =>
    intro acc res _ h
    simp only [possibilityFeature, Option.some_inj] at h
    rw [h]
  | cons c rest ih =>
    intro acc res hni h
    simp only [possibilityFeature] at h
    cases hstep : processCriterion valid maxV acc c with
    | none => rw [hstep] at h; simp at h
    | some acc' =>
      rw [hstep] at h
      have h1 := processCriterion_osVersion valid maxV acc acc' c
        (hni c (List.mem_cons_self _ _)) hstep
      have h2 := ih acc' res (fun x hx => hni x (List.mem_cons_of_mem _ hx)) h
      rw [h2, h1]

theorem processCriterion_affected (valid : String → Bool) (maxV : String)
    (acc acc' : FeatureAcc) (c : criterion)
    (h : processCriterion valid maxV acc c = some acc') :
    acc'.feature.AffectedVersion = acc.feature.AffectedVersion ∨
      ∃ i, firstIdx earlierMarker.data c.Comment.data = some i ∧
        acc'.feature.AffectedVersion = String.mk (c.Comment.data.drop (i + 17)) := by
  simp only [processCriterion] at h
  split at h
  · split at h
    · exact absurd h (by simp)
    · rename_i j hj
      injection h with h; subst h
      left; rfl
  · split at h
    · injection h with h; subst h; left; rfl
    · rename_i i hi
      split at h
      · injection h with h; subst h
        right
        refine ⟨i, hi, ?_⟩
        by_cases hv : String.mk (c.Comment.data.drop (i + 17)) ≠ maxV
        · simp only [if_pos hv]
        · simp only [if_neg hv]
      · injection h with h; subst h; left; rfl

theorem possibilityFeature_affected (valid : String → Bool) (maxV : String) :
    ∀ (crits : List criterion) (acc res : FeatureAcc),
      possibilityFeature valid maxV crits acc = some res →
      res.feature.AffectedVersion = acc.feature.AffectedVersion ∨
        ∃ c ∈ crits, ∃ i, firstIdx earlierMarker.data c.Comment.data = some i ∧
          res.feature.AffectedVersion = String.mk (c.Comment.data.drop (i + 17)) := by
  intro crits
  induction crits with
  | nil =>
    intro acc res h
    simp only [possibilityFeature, Option.some_inj] at h
    rw [h]
    exact Or.inl rfl
  | cons c rest ih =>
    intro acc res h
    simp only [possibilityFeature] at h
    cases hstep : processCriterion valid maxV acc c with
    | none => rw [hstep] at h; simp at h
    | some acc' =>
      rw [hstep] at h
      rcases ih acc' res h with heq | ⟨c', hc', i, hi, hv⟩
      · rcases processCriterion_affected valid maxV acc acc' c hstep with heq' | ⟨i, hi, hv⟩
        · left; rw [heq, heq']
        · right; exact ⟨c, List.mem_cons_self _ _, i, hi, by rw [heq, hv]⟩
      · right; exact ⟨c', List.mem_cons_of_mem _ hc', i, hi, hv⟩

theorem processCriterion_total (valid : String → Bool) (maxV : String)
    (acc : FeatureAcc) (c : criterion)
    (hsp : containsStr c.Comment installedMarker = true →
      (firstIdx [' '] (c.Comment.data.drop 13)).isSome = true) :
    (processCriterion valid maxV acc c).isSome = true := by
  simp only [processCriterion]
  split
  · rename_i hinst
    split
    · rename_i hidx
      have := hsp hinst
      rw [hidx] at this
      simp at this
    · rfl
  · split
    · rfl
    · split
      · rfl
      · rfl

theorem possibilityFeature_total (valid : String → Bool) (maxV : String) :
    ∀ (crits : List criterion) (acc : FeatureAcc),
      (∀ c ∈ crits, containsStr c.Comment installedMarker = true →
        (firstIdx [' '] (c.Comment.data.drop 13)).isSome = true) →
      ∃ res, possibilityFeature valid maxV crits acc = some res := by
  intro crits
  induction crits with
  | nil => intro acc _; exact ⟨acc, rfl⟩
  | cons c rest ih =>
    intro acc hsp
    obtain ⟨acc', hstep⟩ := Option.isSome_iff_exists.mp
      (processCriterion_total valid maxV acc c (hsp c (List.mem_cons_self _ _)))
    obtain ⟨res, hrest⟩ := ih acc' (fun x hx => hsp x (List.mem_cons_of_mem _ hx))
    exact ⟨res, by simp only [possibilityFeature, hstep, hrest]⟩

/-- C4 counterexample: with the sentinel version the criterion loop
leaves `FixedInVersion` empty as claimed, but the completeness check at
`oracle.go:385` requires a non-empty `FixedInVersion`, so the fact is
discarded — the advisory's fact set is empty, refuting "facts with empty
fixed-in version can appear in the advisory's fact set".  (The validator
is the spec-modelled external parameter, instantiated to accept the
sentinel as §4.3 and §6 describe.) -/
theorem sentinel_fact_discarded_counterexample :
    possibilityFeature (fun _ => true) "MAX"
        [⟨"Oracle Linux 7 is installed"⟩, ⟨"mutt is earlier than MAX"⟩] initialFeatureAcc =
      some ⟨⟨⟨"", ""⟩, "mutt", "binary", "MAX", ""⟩, 7⟩
  ∧ toFeatures (fun _ => true) "MAX"
      (criteria.mk "AND" [] [⟨"Oracle Linux 7 is installed"⟩, ⟨"mutt is earlier than MAX"⟩]) =
    some [] := by
  constructor
  · decide
  · have hg : getPossibilities
        (criteria.mk "AND" [] [⟨"Oracle Linux 7 is installed"⟩, ⟨"mutt is earlier than MAX"⟩]) =
        [[⟨"Oracle Linux 7 is installed"⟩, ⟨"mutt is earlier than MAX"⟩]] := by
      rw [getPossibilities_eq]; decide
    simp only [toFeatures, hg]
    decide

/-- C4 (amended): for a version-bound condition whose version is valid
and equal to the sentinel, the extractor sets the affected version and
leaves the fixed-in version unchanged (empty when nothing set it
earlier) — but such a fact is **not** resolvable: the emission check
requires a non-empty fixed-in version, so no fact with an empty fixed-in
version ever appears in an advisory's fact set. -/
theorem sentinel_version_fact_discarded :
    (∀ (valid : String → Bool) (maxV : String) (acc : FeatureAcc) (c : criterion) (i : Nat),
      containsStr c.Comment installedMarker = false →
      firstIdx earlierMarker.data c.Comment.data = some i →
      String.mk (c.Comment.data.drop (i + 17)) = maxV →
      valid maxV = true →
      ∃ acc', processCriterion valid maxV acc c = some acc' ∧
        acc'.feature.AffectedVersion = maxV ∧
        acc'.feature.FixedInVersion = acc.feature.FixedInVersion)
  ∧ (∀ (valid : String → Bool) (maxV : String) (root : criteria)
      (facts : List AffectedFeature),
      toFeatures valid maxV root = some facts → ∀ f ∈ facts, f.FixedInVersion ≠ "") := by
  constructor
  · intro valid maxV acc c i hni hidx hver hval
    simp only [processCriterion, hni, Bool.false_eq_true, if_false, hidx, hver, hval,
      if_true, ne_eq, not_true_eq_false]
    exact ⟨_, rfl, rfl, rfl⟩
  · intro valid maxV root facts h f hf
    have hres := toFeatures_resolved valid maxV root facts h f hf
    simp only [resolvedFeature, Bool.and_eq_true, bne_iff_ne] at hres
    exact hres.2

/-- Witness for C4: the sentinel keeps the version fields as claimed on
a concrete criterion, and a concretely emitted fact has a non-empty
fixed-in version. -/
theorem sentinel_version_fact_discarded_witness :
    (∃ acc', processCriterion (fun _ => true) "MAX" initialFeatureAcc
        ⟨"pkg is earlier than MAX"⟩ = some acc' ∧
      acc'.feature.AffectedVersion = "MAX" ∧
      acc'.feature.FixedInVersion = initialFeatureAcc.feature.FixedInVersion)
  ∧ (⟨⟨"oracle:0", "rpm"⟩, "pkg", "binary", "1.0", "1.0"⟩ : AffectedFeature).FixedInVersion ≠ "" := by
  constructor
  · exact sentinel_version_fact_discarded.1 (fun _ => true) "MAX" initialFeatureAcc
      ⟨"pkg is earlier than MAX"⟩ 3 (by decide) (by decide) (by decide) rfl
  · have hg : getPossibilities (criteria.mk "AND" [] [⟨"pkg is earlier than 1.0"⟩]) =
        [[⟨"pkg is earlier than 1.0"⟩]] := by
      rw [getPossibilities_eq]; decide
    exact sentinel_version_fact_discarded.2 (fun _ => true) "MAX"
      (criteria.mk "AND" [] [⟨"pkg is earlier than 1.0"⟩])
      [⟨⟨"oracle:0", "rpm"⟩, "pkg", "binary", "1.0", "1.0"⟩]
      (by simp only [toFeatures, hg]; decide) _ (by decide)

/-- C5 counterexample: a possibility with a valid version bound but no
successfully parsed OS release still yields a fact — `osVersion` keeps
its zero value and the namespace becomes the non-empty `"oracle:0"`, so
the completeness check passes, refuting "a possibility whose release
number never parses successfully yields no fact". -/
theorem fact_without_release_counterexample :
    toFeatures (fun _ => true) "MAX" (criteria.mk "AND" [] [⟨"pkg is earlier than 1.0"⟩]) =
      some [⟨⟨"oracle:0", "rpm"⟩, "pkg", "binary", "1.0", "1.0"⟩] := by
  have hg : getPossibilities (criteria.mk "AND" [] [⟨"pkg is earlier than 1.0"⟩]) =
      [[⟨"pkg is earlier than 1.0"⟩]] := by
    rw [getPossibilities_eq]; decide
  simp only [toFeatures, hg]
  decide

/-- C5 (amended): the namespace is never empty — it is
`"oracle:" ++ itoa osVersion`, defaulting to `"oracle:0"` for a
possibility in which no criterion matches the installed pattern — so a
successfully parsed release is *not* required for a fact to be emitted;
resolution only requires non-empty package name and version fields. -/
theorem namespace_defaults_without_release :
    ∀ (valid : String → Bool) (maxV : String) (crits : List criterion) (res : FeatureAcc),
      (∀ c ∈ crits, containsStr c.Comment installedMarker = false) →
      possibilityFeature valid maxV crits initialFeatureAcc = some res →
      (finishFeature res).Namespace.Name = "oracle:0" ∧
      (finishFeature res).Namespace.Name ≠ "" := by
  intro valid maxV crits res hni h
  have hos := possibilityFeature_osVersion valid maxV crits initialFeatureAcc res hni h
  constructor
  · show "oracle" ++ ":" ++ itoa res.osVersion = "oracle:0"
    rw [hos]
    decide
  · show "oracle" ++ ":" ++ itoa res.osVersion ≠ ""
    rw [hos]
    decide

/-- Witness for C5: on the possibility `["pkg is earlier than 1.0"]`
(no installed-pattern criterion) the finished fact's namespace is
`"oracle:0"` and non-empty. -/
theorem namespace_defaults_without_release_witness :
    (finishFeature ⟨⟨⟨"", ""⟩, "pkg", "binary", "1.0", "1.0"⟩, 0⟩).Namespace.Name = "oracle:0" ∧
    (finishFeature ⟨⟨⟨"", ""⟩, "pkg", "binary", "1.0", "1.0"⟩, 0⟩).Namespace.Name ≠ "" :=
  namespace_defaults_without_release (fun _ => true) "MAX" [⟨"pkg is earlier than 1.0"⟩]
    ⟨⟨⟨"", ""⟩, "pkg", "binary", "1.0", "1.0"⟩, 0⟩ (by decide) (by decide)

/-- C6 counterexample: an emitted fact's `AffectedVersion` is the parsed
version string itself (`oracle.go:374`), not the literal `"vulnerable"`
marker the claim requires. -/
theorem affectedVersion_not_vulnerable_counterexample :
    toFeatures (fun _ => true) "MAX"
        (criteria.mk "AND" [] [⟨"Oracle Linux 7 is installed"⟩, ⟨"bar is earlier than 2.0-1"⟩]) =
      some [⟨⟨"oracle:7", "rpm"⟩, "bar", "binary", "2.0-1", "2.0-1"⟩]
  ∧ ("2.0-1" : String) ≠ "vulnerable" := by
  constructor
  · have hg : getPossibilities
        (criteria.mk "AND" [] [⟨"Oracle Linux 7 is installed"⟩, ⟨"bar is earlier than 2.0-1"⟩]) =
        [[⟨"Oracle Linux 7 is installed"⟩, ⟨"bar is earlier than 2.0-1"⟩]] := by
      rw [getPossibilities_eq]; decide
    simp only [toFeatures, hg]
    decide
  · decide

/-- C6 (amended): every fact emitted by the extractor carries as its
affected version the exact version substring parsed from the text after
`" is earlier than "` of some criterion of some possibility — never a
fixed marker constant. -/
theorem affectedVersion_is_parsed_version :
    ∀ (valid : String → Bool) (maxV : String) (root : criteria)
      (facts : List AffectedFeature) (f : AffectedFeature),
      toFeatures valid maxV root = some facts → f ∈ facts →
      ∃ crits ∈ getPossibilities root, ∃ c ∈ crits, ∃ i,
        firstIdx earlierMarker.data c.Comment.data = some i ∧
        f.AffectedVersion = String.mk (c.Comment.data.drop (i + 17)) := by
  intro valid maxV root facts f h hf
  simp only [toFeatures] at h
  cases hfold : foldPoss valid maxV (getPossibilities root) [] with
  | none => rw [hfold] at h; simp at h
  | some m' =>
    rw [hfold] at h
    simp only [Option.map_some', Option.some_inj] at h
    subst h
    rcases List.mem_map.mp hf with ⟨p, hp, hpf⟩
    rcases foldPoss_mem valid maxV _ _ _ hfold p hp with
      hmem | ⟨crits, hcrits, res, hres1, hres2, hres3⟩
    · simp at hmem
    · have hfa : f.AffectedVersion = res.feature.AffectedVersion := by
        rw [← hpf, hres2]; rfl
      have hne : f.AffectedVersion ≠ "" := by
        have hr := hres3
        rw [← hres2, hpf] at hr
        simp only [resolvedFeature, Bool.and_eq_true, bne_iff_ne] at hr
        exact hr.1.2
      rcases possibilityFeature_affected valid maxV crits initialFeatureAcc res hres1 with
        h0 | ⟨c, hc, i, hi, hv⟩
      · exact absurd (by rw [hfa, h0]; rfl) hne
      · exact ⟨crits, hcrits, c, hc, i, hi, by rw [hfa, hv]⟩

/-- Witness for C6: the fact emitted for
`["qux is earlier than 3.1"]` gets its affected version from the text
after the marker of that criterion. -/
theorem affectedVersion_is_parsed_version_witness :
    ∃ crits ∈ getPossibilities (criteria.mk "AND" [] [⟨"qux is earlier than 3.1"⟩]),
      ∃ c ∈ crits, ∃ i,
        firstIdx earlierMarker.data c.Comment.data = some i ∧
        (⟨⟨"oracle:0", "rpm"⟩, "qux", "binary", "3.1", "3.1"⟩ : AffectedFeature).AffectedVersion =
          String.mk (c.Comment.data.drop (i + 17)) := by
  have hg : getPossibilities (criteria.mk "AND" [] [⟨"qux is earlier than 3.1"⟩]) =
      [[⟨"qux is earlier than 3.1"⟩]] := by
    rw [getPossibilities_eq]; decide
  exact affectedVersion_is_parsed_version (fun _ => true) "MAX"
    (criteria.mk "AND" [] [⟨"qux is earlier than 3.1"⟩])
    [⟨⟨"oracle:0", "rpm"⟩, "qux", "binary", "3.1", "3.1"⟩]
    ⟨⟨"oracle:0", "rpm"⟩, "qux", "binary", "3.1", "3.1"⟩
    (by simp only [toFeatures, hg]; decide) (by decide)

/-- C8 counterexample: the comment `"x is installed"` contains the
installed marker but has no space at or after byte 13, so
`strings.Index` returns `-1` and the slice `c.Comment[13:12]` panics —
extraction crashes (modelled by `none`) instead of continuing, refuting
"extraction never aborts or crashes on such a condition, whatever the
surrounding text looks like". -/
theorem osRelease_panic_counterexample :
    toFeatures (fun _ => true) "MAX" (criteria.mk "AND" [] [⟨"x is installed"⟩]) = none := by
  have hg : getPossibilities (criteria.mk "AND" [] [⟨"x is installed"⟩]) =
      [[⟨"x is installed"⟩]] := by
    rw [getPossibilities_eq]; decide
  simp only [toFeatures, hg]
  decide

/-- C8 (amended): an `strconv.Atoi` failure on the release token is
indeed non-fatal — the criterion is processed, `osVersion` receives
Go's zero result, and the loop continues — and a whole possibility is
processed without panic provided every installed-pattern comment has a
space at or after byte 13; without such a space the slice expression
panics (see the counterexample). -/
theorem osRelease_nonfatal :
    (∀ (valid : String → Bool) (maxV : String) (acc : FeatureAcc) (c : criterion) (j : Nat),
      containsStr c.Comment installedMarker = true →
      firstIdx [' '] (c.Comment.data.drop 13) = some j →
      atoi (String.mk (trimChars ((c.Comment.data.drop 13).take j))) = none →
      processCriterion valid maxV acc c = some { acc with osVersion := 0 })
  ∧ (∀ (valid : String → Bool) (maxV : String) (crits : List criterion) (acc : FeatureAcc),
      (∀ c ∈ crits, containsStr c.Comment installedMarker = true →
        (firstIdx [' '] (c.Comment.data.drop 13)).isSome = true) →
      ∃ res, possibilityFeature valid maxV crits acc = some res) := by
  constructor
  · intro valid maxV acc c j hinst hidx hatoi
    simp only [processCriterion, hinst, if_true, hidx, hatoi, Option.getD]
  · exact fun valid maxV crits acc h => possibilityFeature_total valid maxV crits acc h

/-- Witness for C8: `"Oracle Linux foo is installed"` has an unparsable
release token `"foo"`; the criterion is processed with `osVersion = 0`
and the possibility completes. -/
theorem osRelease_nonfatal_witness :
    processCriterion (fun _ => true) "MAX" initialFeatureAcc
        ⟨"Oracle Linux foo is installed"⟩ = some { initialFeatureAcc with osVersion := 0 }
  ∧ ∃ res, possibilityFeature (fun _ => true) "MAX"
      [⟨"Oracle Linux foo is installed"⟩] initialFeatureAcc = some res := by
  constructor
  · exact osRelease_nonfatal.1 (fun _ => true) "MAX" initialFeatureAcc
      ⟨"Oracle Linux foo is installed"⟩ 3 (by decide) (by decide) (by decide)
  · exact osRelease_nonfatal.2 (fun _ => true) "MAX"
      [⟨"Oracle Linux foo is installed"⟩] initialFeatureAcc (by decide)

/-- C10 (confirmed): synthesizing records from a decoded advisory is
total only when every fact-yielding definition's title contains `": "`;
a definition that yields at least one fact but whose title lacks the
separator makes `name` slice with the index of a missing substring, and
the whole `parseELSA` run crashes (modelled by `none`) instead of
returning records or a parse-error outcome. -/
theorem parseELSA_missing_separator_panics :
    ∀ (valid : String → Bool) (maxV : String) (d : definition)
      (pkgs : List AffectedFeature),
      toFeatures valid maxV d.Criteria = some pkgs →
      pkgs ≠ [] →
      containsStr d.Title ": " = false →
      ∀ (defs : List definition) (acc : List VulnRecord),
        d ∈ defs → parseELSADefs valid maxV defs acc = none := by
  intro valid maxV d pkgs htf hne htitle defs
  have hname : name d = none := by
    unfold name
    cases hidx : firstIdx ": ".data d.Title.data with
    | none => rfl
    | some i => rw [containsStr, hidx] at htitle; simp at htitle
  induction defs with
  | nil => intro acc h; simp at h
  | cons hd rest ih =>
    intro acc hmem
    simp only [parseELSADefs]
    rcases List.mem_cons.mp hmem with heq | hmem'
    · subst heq
      split
      · rfl
      · rename_i pkgs' htf'
        rw [htf] at htf'
        injection htf' with e
        subst e
        split
        · split
          · rfl
          · rename_i nm hnm
            rw [hname] at hnm
            exact absurd hnm (by simp)
        · rename_i hlen
          exact absurd (List.length_pos.mpr hne) hlen
    · split
      · rfl
      · split
        · split
          · rfl
          · split
            · exact ih _ hmem'
            · exact ih _ hmem'
        · exact ih _ hmem'

/-- Witness for C10: a concrete advisory whose single definition yields
one fact but has no `": "` in its title makes the whole parse crash. -/
theorem parseELSA_missing_separator_panics_witness :
    parseELSADefs (fun _ => true) "MAX"
      [{ Title := "ELSA-2017-0001 no separator here",
         Description := "d", References := [], Severity := "",
         Criteria := criteria.mk "AND" [] [⟨"pkg is earlier than 1.0"⟩], CVEs := [] }] [] =
      none := by
  have hg : getPossibilities (criteria.mk "AND" [] [⟨"pkg is earlier than 1.0"⟩]) =
      [[⟨"pkg is earlier than 1.0"⟩]] := by
    rw [getPossibilities_eq]; decide
  exact parseELSA_missing_separator_panics (fun _ => true) "MAX"
    { Title := "ELSA-2017-0001 no separator here",
      Description := "d", References := [], Severity := "",
      Criteria := criteria.mk "AND" [] [⟨"pkg is earlier than 1.0"⟩], CVEs := [] }
    [⟨⟨"oracle:0", "rpm"⟩, "pkg", "binary", "1.0", "1.0"⟩]
    (by simp only [toFeatures, hg]; decide) (by decide) (by decide)
    _ [] (List.mem_singleton.mpr rfl)

theorem processElsas_fails (results : Int → ElsaResult) :
    ∀ (l : List Int) (acc : List VulnRecord),
      (∃ e ∈ l, (results e).isFailure = true) →
      ((processElsas results l acc).2).isSome = true := by
  intro l
  induction l with
  | nil =>
    rintro acc ⟨e, he, _⟩
    simp at he
  | cons x rest ih =>
    rintro acc ⟨e, he, hfail⟩
    simp only [processElsas]
    split
    · rfl
    · rfl
    · rfl
    · rename_i vs hok
      rcases List.mem_cons.mp he with heq | hmem
      · subst heq
        rw [hok] at hfail
        simp [ElsaResult.isFailure] at hfail
      · exact ih _ ⟨e, hmem, hfail⟩

/-- C3 counterexample: candidates `{5, 9, 7}` above cursor `3`, where
the fetch of id `7` fails after ids `5` and `9` were parsed — the batch
aborts with the typed transport error and no flag is proposed, but the
returned response still carries the vulnerabilities accumulated before
the failure, refuting "no partial vulnerability set is returned to the
caller for that batch". -/
theorem update_partial_results_counterexample :
    (update (some "3") [5, 9, 7]
        (fun n => if n = 7 then .fetchErr else .ok [⟨"ELSA-" ++ itoa n, "", .unknown, "", []⟩])).2 =
      some .couldNotDownload
  ∧ (update (some "3") [5, 9, 7]
        (fun n => if n = 7 then .fetchErr else .ok [⟨"ELSA-" ++ itoa n, "", .unknown, "", []⟩])).1.FlagValue =
      none
  ∧ (update (some "3") [5, 9, 7]
        (fun n => if n = 7 then .fetchErr else .ok [⟨"ELSA-" ++ itoa n, "", .unknown, "", []⟩])).1.Vulnerabilities =
      [⟨"ELSA-5", "", .unknown, "", []⟩, ⟨"ELSA-9", "", .unknown, "", []⟩] := by
  refine ⟨?_, ?_, ?_⟩
  · decide
  · decide
  · decide

/-- C3 (amended): whenever some selected candidate's fetch fails,
returns a non-success status, or fails to decode, the batch aborts with
a typed error and proposes no flag change — but the response returned
alongside the error still contains the vulnerabilities of the
advisories processed before the failure (see the counterexample). -/
theorem update_failure_aborts :
    ∀ (flagValue : Option String) (listing : List Int) (results : Int → ElsaResult),
      (∃ e ∈ selectedElsas flagValue listing, (results e).isFailure = true) →
      (update flagValue listing results).1.FlagValue = none ∧
      ∃ err, (update flagValue listing results).2 = some err := by
  intro fv listing results hex
  have hfail := processElsas_fails results (selectedElsas fv listing) [] hex
  simp only [update]
  cases hpe : processElsas results (selectedElsas fv listing) [] with
  | mk vulns errOpt =>
    rw [hpe] at hfail
    cases errOpt with
    | none => simp at hfail
    | some err =>
      exact ⟨rfl, err, rfl⟩

/-- Witness for C3: a batch whose only candidate fails to decode aborts
with a typed error and proposes no flag. -/
theorem update_failure_aborts_witness :
    (update none [20200001] (fun _ => ElsaResult.parseErr)).1.FlagValue = none
  ∧ ∃ err, (update none [20200001] (fun _ => ElsaResult.parseErr)).2 = some err :=
  update_failure_aborts none [20200001] (fun _ => ElsaResult.parseErr)
    ⟨20200001, by decide, by decide⟩
